import Mathlib

/-!
Shallow embedding of `src/FMP.py`, a thin client for the Financial Modeling
Prep REST API, together with proofs about its behaviour.

Modelling conventions:
* machine floats carrying prices are idealised as rationals (`ℚ`); the float
  `NaN` produced by `pct_change` on the first row (and dropped by `dropna`)
  is modelled by `Option ℚ` with `none` for `NaN`;
* a date string `"YYYY-MM-DD"` is modelled by its parsed triple `Date`;
  `sort_values(by='date')` sorts those ISO strings lexicographically, which
  coincides with the lexicographic order on the triples, modelled here by the
  numeric key `Date.key`;
* the HTTP world is a function from URL to response; each request issued by
  the code is recorded in a log so that "exactly one GET per fetch" is a
  provable statement;
* Python exceptions are modelled by `Except PyError`; the JSON bodies the
  client can receive from the two endpoints it talks to are modelled by
  `Body` at the granularity at which the client inspects them.
-/

namespace FMPSpec

/-- A calendar date, the parse of an ISO `"YYYY-MM-DD"` string. -/
structure Date where
  y : Nat
  m : Nat
  d : Nat
deriving DecidableEq, Repr

/-- Numeric sort key; on zero-padded ISO strings (month and day below 100)
the lexicographic string order used by `sort_values(by='date')` agrees with
the order of this key. -/
def Date.key (dt : Date) : Nat :=
  dt.y * 10000 + dt.m * 100 + dt.d

/-- The date order used throughout: the order of the ISO date strings. -/
def Date.le (a b : Date) : Prop :=
  a.key ≤ b.key

instance : DecidableRel Date.le :=
  fun a b => inferInstanceAs (Decidable (a.key ≤ b.key))

instance : IsTotal Date Date.le :=
  ⟨fun a b => Nat.le_total a.key b.key⟩

instance : IsTrans Date Date.le :=
  ⟨fun _ _ _ h h' => Nat.le_trans h h'⟩

/-- One record of the `historical` array of the
`historical-price-full` endpoint (also reused for the OHLCV records of the
`historical-chart` endpoint): the fields the client reads or carries. -/
structure Row where
  date : Date
  openP : ℚ
  high : ℚ
  low : ℚ
  close : ℚ
  adjClose : ℚ
  volume : ℚ
deriving DecidableEq, Repr

/-- A parsed JSON body, at the granularity at which `FMP.py` inspects it:
the empty object (tested by `response.json() == {}`), the
`{"symbol": ..., "historical": [...]}` object of `historical-price-full`,
and the bare record array of `historical-chart`. -/
inductive Body
  | emptyObj
  | histData (symbol : String) (rows : List Row)
  | chart (rows : List Row)
deriving DecidableEq, Repr

/-- An HTTP response: status code and parsed JSON body. -/
structure HttpResponse where
  status : Nat
  body : Body
deriving DecidableEq, Repr

/-- The Python exception classes the embedded code can raise. -/
inductive PyError
  | connectionError
  | valueError
  | typeError
  | keyError
deriving DecidableEq, Repr

/-- The HTTP world: which response each URL currently yields. -/
def World : Type := String → HttpResponse

/-- The attributes set on `self` by `FMP.__init__`. -/
structure FMPState where
  _key : String
  _ticker : String
deriving DecidableEq, Repr

/-- A Python value at the granularity needed to model the return value of
`__init__`: `None` or a string. -/
inductive PyValue
  | none
  | str (s : String)
deriving DecidableEq, Repr

/-- `FMP.__init__(self, key, ticker='None')`: sets `self._key` and
`self._ticker`, then executes `return self._ticker`.  The returned Python
value is the string `ticker`, not `None`. -/
def FMP.init (key : String) (ticker : String := "None") : FMPState × PyValue :=
  let self : FMPState := ⟨key, ticker⟩
  (self, PyValue.str self._ticker)

/-- Python object construction semantics: `FMP(key, ticker)` calls
`FMP.__init__` and raises `TypeError` when `__init__` returns anything other
than `None` (CPython: "__init__() should return None"); otherwise the
constructed instance is produced. -/
def FMP.construct (key : String) (ticker : String := "None") :
    Except PyError FMPState :=
  match FMP.init key ticker with
  | (self, PyValue.none) => Except.ok self
  | (_, PyValue.str _) => Except.error PyError.typeError

/-! ### Library operations used by the code

`pandas` primitives, modelled on lists of rows: `pct_change`,
`sort_values(by='date')`, `drop_duplicates(keep='first')`, and the
date-bucketing conversions (`to_period`, `astype('datetime64[M]')`,
`.dt.year`). -/

/-- `Series.pct_change()`: fractional change between consecutive elements,
`NaN` (here `none`) for the first element. -/
def pctChangeList : List ℚ → List (Option ℚ)
  | [] => []
  | x :: xs => Option.none :: pctChangeGo x xs
where
  pctChangeGo : ℚ → List ℚ → List (Option ℚ)
  | _, [] => []
  | prev, x :: xs => some ((x - prev) / prev) :: pctChangeGo x xs

/-- `sort_values(by='date', ascending=True)`: sort the records by their ISO
date string. -/
def sortByDate (rows : List Row) : List Row :=
  List.insertionSort (fun a b => Date.le a.date b.date) rows

/-- `drop_duplicates(subset=[k], keep='first')`: keep, in order, the first
record bearing each distinct key. -/
def dedupFirst {α β : Type} [DecidableEq β] (key : α → β) : List α → List α
  | [] => []
  | x :: xs =>
      x :: dedupFirst key (xs.filter fun y => decide (key y ≠ key x))
termination_by l => l.length
decreasing_by
  simp only [List.length_cons]
  exact Nat.lt_succ_of_le (List.length_filter_le _ _)

/-- Days since 1970-01-01 of a civil date (standard civil-from-days inverse;
1970-01-01 is day 0, a Thursday). -/
def Date.toDays (dt : Date) : Int :=
  let y : Int := if dt.m ≤ 2 then (dt.y : Int) - 1 else (dt.y : Int)
  let era : Int := (if 0 ≤ y then y else y - 399) / 400
  let yoe : Int := y - era * 400
  let mp : Int := (if dt.m ≤ 2 then (dt.m : Int) + 9 else (dt.m : Int) - 3)
  let doy : Int := (153 * mp + 2) / 5 + (dt.d : Int) - 1
  let doe : Int := yoe * 365 + yoe / 4 - yoe / 100 + doy
  era * 146097 + doe - 719468

/-- Epoch-day of the Monday starting the week containing `dt`: the
`start_time` of `to_period('w')` (pandas weekly periods are anchored
W-SUN, so they run Monday through Sunday).  1970-01-05 (day 4) was a
Monday. -/
def Date.weekStart (dt : Date) : Int :=
  4 + 7 * ((dt.toDays - 4).fdiv 7)

/-- The value of the bucket column that `historical_price_by_interval` adds
before `drop_duplicates`: `'week'` holds `to_period('w').start_time`,
`'monthly'` holds `astype('datetime64[M]')` (the year-month), `'quarter'`
holds `to_period('q')`, `'year'` holds `.dt.year`. -/
inductive Bucket
  | week (startDay : Int)
  | month (y m : Nat)
  | quarter (y q : Nat)
  | year (y : Nat)
deriving DecidableEq, Repr

/-- The bucket of a date for each of the resampling intervals. -/
def bucketOf (interval : String) (dt : Date) : Bucket :=
  if interval = "1w" then Bucket.week dt.weekStart
  else if interval = "1m" then Bucket.month dt.y dt.m
  else if interval = "1q" then Bucket.quarter dt.y ((dt.m - 1) / 3 + 1)
  else Bucket.year dt.y

/-! ### The two private fetch helpers -/

/-- The frame `pd.DataFrame.from_dict(response.json())` builds from each of
the modelled bodies: a record list becomes a table of those records in
order, `{}` becomes an empty frame, and the `historical-price-full` object
becomes a two-column frame (its scalar `symbol` broadcast against the
`historical` array). -/
inductive RawDF
  | ofChart (rows : List Row)
  | empty
  | ofHist (symbol : String) (rows : List Row)
deriving DecidableEq, Repr

/-- `pd.DataFrame.from_dict` on a parsed body. -/
def fromDict : Body → RawDF
  | Body.chart rows => RawDF.ofChart rows
  | Body.emptyObj => RawDF.empty
  | Body.histData s rows => RawDF.ofHist s rows

/-- `FMP._get_df(url)`: one GET; on status 200 return the frame of the JSON
body, otherwise raise `ConnectionError`.  The second component is the log of
URLs requested. -/
def _get_df (world : World) (url : String) :
    Except PyError RawDF × List String :=
  let response := world url
  if response.status = 200 then
    (Except.ok (fromDict response.body), [url])
  else
    (Except.error PyError.connectionError, [url])

/-- The frame `_get_historical_fmp` returns: the `historical` records plus
the inserted `symbol` column, sorted ascending by date and indexed by
date. -/
structure HistDF where
  symbol : String
  rows : List Row
deriving DecidableEq, Repr

/-- `FMP._get_historical_fmp(url)`: one GET; on non-200 raise
`ConnectionError`; on 200 with body `{}` return `None`; otherwise read
`['symbol']` and `['historical']`, insert the symbol column, sort by date
and set the date index.  Off the happy path the Python evaluation raises:
subscripting a JSON array body with the string `'symbol'` is a `TypeError`,
and `sort_values(by='date')` on the frame of an empty `historical` array
(which has no `date` column) is a `KeyError`. -/
def _get_historical_fmp (world : World) (url : String) :
    Except PyError (Option HistDF) × List String :=
  let response := world url
  if response.status = 200 then
    match response.body with
    | Body.emptyObj => (Except.ok Option.none, [url])
    | Body.chart _ => (Except.error PyError.typeError, [url])
    | Body.histData symbol rows =>
        if rows = [] then
          (Except.error PyError.keyError, [url])
        else
          (Except.ok (some ⟨symbol, sortByDate rows⟩), [url])
  else
    (Except.error PyError.connectionError, [url])

/-! ### `historical_price_by_interval` -/

/-- The URL of the `historical-chart` endpoint. -/
def chartUrl (interval ticker key : String) : String :=
  s!"https://financialmodelingprep.com/api/v3/historical-chart/{interval}/{ticker}?apikey={key}"

/-- The URL of the `historical-price-full` endpoint. -/
def histUrl (ticker key : String) : String :=
  s!"https://financialmodelingprep.com/api/v3/historical-price-full/{ticker}?apikey={key}"

/-- A row of the frame returned for interval `'1d'`: the historical record
together with the added `'pct change'` column. -/
structure DailyRow where
  row : Row
  pct : Option ℚ
deriving DecidableEq, Repr

/-- A row of the frame returned for the resampling intervals: the record,
the `'pct change'` column, the `'daily'` column (`pd.to_datetime` of the
date index, i.e. the date itself), and the interval's bucket column. -/
structure ExtRow where
  row : Row
  pct : Option ℚ
  daily : Date
  bucket : Bucket
deriving DecidableEq, Repr

/-- The three frame shapes `historical_price_by_interval` can return. -/
inductive PriceResult
  | chartDF (df : RawDF)
  | dailyDF (symbol : String) (rows : List DailyRow)
  | bucketedDF (symbol : String) (rows : List ExtRow)
deriving DecidableEq, Repr

/-- `historical_df['pct change'] = historical_df['adjClose'].pct_change()`. -/
def addPct (rows : List Row) : List DailyRow :=
  (rows.zip (pctChangeList (rows.map Row.adjClose))).map fun p => ⟨p.1, p.2⟩

/-- Recursive description of `addPct` past the first row, carrying the
previous row's `adjClose`; used to reason about consecutive rows. -/
def addPctAux (prev : ℚ) : List Row → List DailyRow
  | [] => []
  | r :: rs => ⟨r, some ((r.adjClose - prev) / prev)⟩ :: addPctAux r.adjClose rs

/-- Add the `'pct change'`, `'daily'` and bucket columns to the sorted
historical rows.  (In the source only the branch taken adds its own bucket
column; the bucket field is never observed on the `ValueError` branch, so a
single extension function is faithful.) -/
def extendRows (interval : String) (rows : List Row) : List ExtRow :=
  (addPct rows).map fun d => ⟨d.row, d.pct, d.row.date, bucketOf interval d.row.date⟩

/-- The intervals served by the `historical-chart` endpoint. -/
def intradayIntervals : List String :=
  ["4hour", "1hour", "30min", "15min", "5min", "1min"]

/-- `FMP.historical_price_by_interval(ticker=None, interval='1d')`.
Intraday intervals delegate to `_get_df`; `'1d'` fetches the full history
and adds `'pct change'`; the remaining code first fetches the full history,
adds `'pct change'` and `'daily'`, then branches on the interval, raising
`ValueError` only at the end for an unsupported interval.  When
`_get_historical_fmp` returns `None` (empty body) the item assignment
`historical_df['pct change'] = ...` on `None` raises `TypeError`. -/
def historical_price_by_interval (self : FMPState) (world : World)
    (ticker : Option String := Option.none) (interval : String := "1d") :
    Except PyError PriceResult × List String :=
  let t := ticker.getD self._ticker
  let key := self._key
  if interval ∈ intradayIntervals then
    let url := chartUrl interval t key
    match _get_df world url with
    | (Except.ok df, log) => (Except.ok (PriceResult.chartDF df), log)
    | (Except.error e, log) => (Except.error e, log)
  else if interval = "1d" then
    let url := histUrl t key
    match _get_historical_fmp world url with
    | (Except.error e, log) => (Except.error e, log)
    | (Except.ok Option.none, log) => (Except.error PyError.typeError, log)
    | (Except.ok (some df), log) =>
        (Except.ok (PriceResult.dailyDF df.symbol (addPct df.rows)), log)
  else
    let url := histUrl t key
    match _get_historical_fmp world url with
    | (Except.error e, log) => (Except.error e, log)
    | (Except.ok Option.none, log) => (Except.error PyError.typeError, log)
    | (Except.ok (some df), log) =>
        let ext := extendRows interval df.rows
        if interval = "1w" then
          (Except.ok (PriceResult.bucketedDF df.symbol (dedupFirst ExtRow.bucket ext)), log)
        else if interval = "1m" then
          (Except.ok (PriceResult.bucketedDF df.symbol (dedupFirst ExtRow.bucket ext)), log)
        else if interval = "1q" then
          (Except.ok (PriceResult.bucketedDF df.symbol (dedupFirst ExtRow.bucket ext)), log)
        else if interval = "1y" then
          (Except.ok (PriceResult.bucketedDF df.symbol (dedupFirst ExtRow.bucket ext)), log)
        else
          (Except.error PyError.valueError, log)

/-! ### `get_multiple_returns` -/

/-- A pandas `Period`, as produced by `Series.dt.to_period` for the five
frequencies documented by `get_multiple_returns` (`D`, `W`, `M`, `Q`, `Y`).
Weekly periods (anchored W-SUN) are identified by the epoch-day of their
Monday. -/
inductive Period
  | D (dt : Date)
  | W (startDay : Int)
  | M (y m : Nat)
  | Q (y q : Nat)
  | Y (y : Nat)
deriving DecidableEq, Repr

/-- `dt.to_period(period)` restricted to the five frequencies documented by
`get_multiple_returns`.  Pandas resolves further aliases (such as `'d'` or
`'A'`) through its frequency-alias table, which is not modelled: the `none`
region of this function is faithful only in that pandas-rejected strings
raise `ValueError`, and no theorem quantifies over period strings outside
the documented five (the empty-symbols theorem never consults the
table). -/
def toPeriodFn : String → Option (Date → Period)
  | "D" => some (fun dt => Period.D dt)
  | "W" => some (fun dt => Period.W dt.weekStart)
  | "M" => some (fun dt => Period.M dt.y dt.m)
  | "Q" => some (fun dt => Period.Q dt.y ((dt.m - 1) / 3 + 1))
  | "Y" => some (fun dt => Period.Y dt.y)
  | _ => Option.none

/-- A total comparison on periods, used to model the lexicographic key sort
that `pd.merge(..., how='outer')` performs; within one call all periods
share one frequency, and within one frequency this is the calendar order. -/
def Period.leB : Period → Period → Bool
  | Period.D a, Period.D b => decide (Date.le a b)
  | Period.D _, _ => true
  | Period.W _, Period.D _ => false
  | Period.W a, Period.W b => decide (a ≤ b)
  | Period.W _, _ => true
  | Period.M _ _, Period.D _ => false
  | Period.M _ _, Period.W _ => false
  | Period.M y m, Period.M y' m' => decide (y < y' ∨ (y = y' ∧ m ≤ m'))
  | Period.M _ _, _ => true
  | Period.Q y q, Period.Q y' q' => decide (y < y' ∨ (y = y' ∧ q ≤ q'))
  | Period.Q _ _, Period.Y _ => true
  | Period.Q _ _, _ => false
  | Period.Y y, Period.Y y' => decide (y ≤ y')
  | Period.Y _, _ => false

/-- The period order as a proposition. -/
def Period.le (a b : Period) : Prop :=
  Period.leB a b = true

instance : DecidableRel Period.le :=
  fun a b => inferInstanceAs (Decidable (Period.leB a b = true))

/-- Association-list lookup on a period-indexed column. -/
def plookup {β : Type} (k : Period) : List (Period × β) → Option β
  | [] => Option.none
  | p :: ps => if p.1 = k then some p.2 else plookup k ps

/-- The single-column frame `df[[ticker]]` built by one iteration of the
loop in `get_multiple_returns` from the daily frame: keep the first row of
each period (`drop_duplicates(subset=['date'], keep='first')`), take the
percent change of the kept `adjClose` values, and drop rows holding any
`NaN` (`dropna()` sees `NaN` in the `'pct change'` column carried over from
the daily frame and in the new column exactly at the first kept row). -/
def returnsSeries (f : Date → Period) (df : List DailyRow) :
    List (Period × ℚ) :=
  let dd := dedupFirst (fun r => f r.row.date) df
  let pcts := pctChangeList (dd.map fun r => r.row.adjClose)
  (dd.zip pcts).filterMap fun rp =>
    match rp.2, rp.1.pct with
    | some v, some _ => some (f rp.1.row.date, v)
    | _, _ => Option.none

/-- The frame built by the `reduce(... pd.merge(left, right, on=['date'],
how='outer') ...)` fold: column names and period-indexed rows, a missing
period in one column holding `NaN` (`none`). -/
structure MergedTable where
  cols : List String
  rows : List (Period × List (Option ℚ))
deriving DecidableEq, Repr

/-- The one-column frame starting the `reduce` fold. -/
def singletonTable (name : String) (s : List (Period × ℚ)) : MergedTable :=
  ⟨[name], s.map fun pv => (pv.1, [some pv.2])⟩

/-- `pd.merge(..., how='outer')` sorts the union of the keys. -/
def sortPeriods (ks : List Period) : List Period :=
  List.insertionSort Period.le ks

/-- One step of the `reduce` fold: outer merge on the `date` index.  The
keys become the sorted union of both key sets; each row pads the incoming
column with `NaN` (`none`) where its period is missing. -/
def mergeOuter (acc : MergedTable) (name : String) (s : List (Period × ℚ)) :
    MergedTable :=
  let accKeys := acc.rows.map Prod.fst
  let keys := sortPeriods (accKeys ++ (s.map Prod.fst).filter fun k => decide (k ∉ accKeys))
  ⟨acc.cols ++ [name],
   keys.map fun k =>
     (k, ((plookup k acc.rows).getD (List.replicate acc.cols.length Option.none)) ++
         [plookup k s])⟩

/-- The outcome of `get_multiple_returns`: the returned frame (or the raised
exception), the log of URLs fetched, and the state of the caller's `tickers`
list object after the call (the local `symbols = tickers` aliases it, so
`symbols.append(compare_with_index)` mutates the caller's list). -/
structure GMRResult where
  result : Except PyError MergedTable
  log : List String
  tickersAfter : List String
deriving Repr

/-- The `for ticker in symbols:` loop: fetch each ticker's daily frame and
reduce it to its period-indexed percent-change column.  An unsupported
period string raises `ValueError` at `dt.to_period(period)`, after the
iteration's fetch. -/
def gmrLoop (self : FMPState) (world : World) (period : String) :
    List String →
      Except PyError (List (String × List (Period × ℚ))) × List String
  | [] => (Except.ok [], [])
  | t :: ts =>
      match historical_price_by_interval self world (some t) "1d" with
      | (Except.error e, log) => (Except.error e, log)
      | (Except.ok (PriceResult.dailyDF _ rows), log) =>
          match toPeriodFn period with
          | Option.none => (Except.error PyError.valueError, log)
          | some f =>
              let s := returnsSeries f rows
              match gmrLoop self world period ts with
              | (Except.error e, log') => (Except.error e, log ++ log')
              | (Except.ok rest, log') => (Except.ok ((t, s) :: rest), log ++ log')
      | (Except.ok _, log) => (Except.error PyError.typeError, log)

/-- `FMP.get_multiple_returns(tickers, period='M', compare_with_index=None)`.
`symbols = tickers` binds the caller's list object, so appending the index
ticker mutates it; `reduce` over an empty frame list (empty `symbols`)
raises `TypeError`. -/
def get_multiple_returns (self : FMPState) (world : World)
    (tickers : List String) (period : String := "M")
    (compare_with_index : Option String := Option.none) : GMRResult :=
  let symbols :=
    match compare_with_index with
    | Option.none => tickers
    | some idx => tickers ++ [idx]
  match gmrLoop self world period symbols with
  | (Except.error e, log) => ⟨Except.error e, log, symbols⟩
  | (Except.ok [], log) => ⟨Except.error PyError.typeError, log, symbols⟩
  | (Except.ok (d :: ds), log) =>
      ⟨Except.ok (ds.foldl (fun acc p => mergeOuter acc p.1 p.2)
          (singletonTable d.1 d.2)), log, symbols⟩

/-- The interval strings accepted by `historical_price_by_interval`. -/
def supportedIntervals : List String :=
  ["4hour", "1hour", "30min", "15min", "5min", "1min", "1d", "1w", "1m", "1q", "1y"]

/-- Specification of the frame produced by outer-merging the per-ticker
columns, relative to the function `seriesOf` giving each ticker's
period-indexed column: the column labels are the tickers in order; the
period keys are pairwise distinct; a period appears iff it appears in some
ticker's column (outer-join semantics); and the entry of row `p` in column
`i` is exactly ticker `i`'s value at `p` (`NaN`, i.e. `none`, when
missing). -/
def MergedInv (seriesOf : String → List (Period × ℚ)) (ts : List String)
    (m : MergedTable) : Prop :=
  m.cols = ts ∧
  (m.rows.map Prod.fst).Nodup ∧
  (∀ p : Period, p ∈ m.rows.map Prod.fst ↔
    ∃ t ∈ ts, p ∈ (seriesOf t).map Prod.fst) ∧
  (∀ pr ∈ m.rows, pr.2.length = ts.length ∧
    ∀ (i : Nat) (h : i < ts.length),
      pr.2[i]? = some (plookup pr.1 (seriesOf ts[i])))

/-- The URL `historical_price_by_interval` fetches for a given interval. -/
def reqUrl (self : FMPState) (t interval : String) : String :=
  if interval ∈ intradayIntervals then chartUrl interval t self._key
  else histUrl t self._key

/-- Forget the payload of a result, keeping only which exception (if any)
was raised. -/
def outcomeOf {γ : Type} : Except PyError γ → Except PyError Unit
  | Except.ok _ => Except.ok ()
  | Except.error e => Except.error e

/-- The failure taxonomy of `historical_price_by_interval` as amended:
`ConnectionError` iff the status is not 200; on a 200 status, intraday
intervals always succeed, while the historical branches raise `TypeError`
on an empty-object (or array) body, `KeyError` on an empty `historical`
array, succeed for the five historical intervals, and raise `ValueError`
for an unsupported interval. -/
def expectedOutcome (resp : HttpResponse) (interval : String) :
    Except PyError Unit :=
  if resp.status ≠ 200 then Except.error PyError.connectionError
  else if interval ∈ intradayIntervals then Except.ok ()
  else
    match resp.body with
    | Body.emptyObj => Except.error PyError.typeError
    | Body.chart _ => Except.error PyError.typeError
    | Body.histData _ rows =>
        if rows = [] then Except.error PyError.keyError
        else if interval ∈ ["1d", "1w", "1m", "1q", "1y"] then Except.ok ()
        else Except.error PyError.valueError

/-- Expected outcome of the per-ticker loop of `get_multiple_returns` when
the period frequency is accepted: the first daily fetch that fails decides
the outcome (`expectedOutcome` at interval `'1d'`: `ConnectionError` for a
non-200 status, `TypeError` for an empty-object or array body, `KeyError`
for an empty `historical` array); otherwise the loop completes. -/
def gmrLoopOutcome (self : FMPState) (world : World) :
    List String → Except PyError Unit
  | [] => Except.ok ()
  | t :: ts =>
      match expectedOutcome (world (histUrl t self._key)) "1d" with
      | Except.error e => Except.error e
      | Except.ok _ => gmrLoopOutcome self world ts

/-- Expected outcome of `get_multiple_returns` over the documented period
frequencies: a loop failure propagates; with an empty symbols list the loop
is vacuous and `reduce()` over no frames raises `TypeError`. -/
def gmrExpectedOutcome (self : FMPState) (world : World)
    (symbols : List String) : Except PyError Unit :=
  if symbols = [] then Except.error PyError.typeError
  else gmrLoopOutcome self world symbols

/-! ### Concrete fixtures used to instantiate the theorems -/

/-- A minimal historical record. -/
def mkRow (y m d : Nat) (adj : ℚ) : Row :=
  ⟨⟨y, m, d⟩, 1, 1, 1, 1, adj, 100⟩

/-- Four daily records spanning two ISO weeks of January 2020 (Thu 2nd,
Fri 3rd, Mon 6th, Tue 7th), listed out of order. -/
def sampleRows : List Row :=
  [mkRow 2020 1 3 10, mkRow 2020 1 2 8, mkRow 2020 1 6 12, mkRow 2020 1 7 6]

/-- A world whose every URL serves the sample history with status 200. -/
def sampleWorld : World :=
  fun _ => ⟨200, Body.histData "AAPL" sampleRows⟩

/-! ## Theorems -/

/-- C1: for every key string and every ticker string, constructing
`FMP(key, ticker)` — and `FMP(key)` with the default ticker — raises
`TypeError`, because `FMP.__init__` returns the string `self._ticker`
instead of `None`; no `FMP` instance is ever successfully constructed. -/
theorem construct_always_raises_typeError :
    ∀ key ticker : String,
      FMP.construct key ticker = Except.error PyError.typeError ∧
      FMP.construct key = Except.error PyError.typeError := by
  intro key ticker
  exact ⟨rfl, rfl⟩

/-- C5 (failing input evaluated): calling `get_multiple_returns` with
`tickers = ['AAPL']` and `compare_with_index = 'SPY'` leaves the caller's
`tickers` list holding `['AAPL', 'SPY']` — the call mutates its argument,
because `symbols = tickers` aliases the caller's list object and
`symbols.append(compare_with_index)` mutates it. -/
theorem gmr_mutates_caller_tickers :
    (get_multiple_returns ⟨"key", "None"⟩ (fun _ => ⟨500, Body.emptyObj⟩)
        ["AAPL"] "M" (some "SPY")).tickersAfter = ["AAPL", "SPY"] ∧
      ["AAPL", "SPY"] ≠ (["AAPL"] : List String) := by
  exact ⟨rfl, by decide⟩

/-- C2 (counterexample): a 200 response whose JSON body is the empty object
makes `historical_price_by_interval('AAPL', '1d')` raise `TypeError`, which
is neither a `ConnectionError` nor a `ValueError`; the failure taxonomy is
not limited to those two. -/
theorem failure_taxonomy_counterexample :
    (historical_price_by_interval ⟨"key", "None"⟩ (fun _ => ⟨200, Body.emptyObj⟩)
        (some "AAPL") "1d").1 = Except.error PyError.typeError ∧
      PyError.typeError ≠ PyError.connectionError ∧
      PyError.typeError ≠ PyError.valueError := by
  refine ⟨rfl, by decide, by decide⟩

/-- C10: `historical_price_by_interval` is deterministic in its input: with
the HTTP world fixed (the same status codes and JSON bodies), two runs with
the same ticker and interval produce the same outcome — in particular
frames with identical columns and identical row order. -/
theorem hist_price_deterministic (self : FMPState) (world : World)
    (ticker : Option String) (interval : String)
    (out₁ out₂ : Except PyError PriceResult × List String)
    (h₁ : historical_price_by_interval self world ticker interval = out₁)
    (h₂ : historical_price_by_interval self world ticker interval = out₂) :
    out₁ = out₂ := by
  rw [← h₁, ← h₂]

/-- Witness for C10 at a concrete fixture. -/
theorem hist_price_deterministic_witness :
    historical_price_by_interval ⟨"key", "None"⟩ (fun _ => ⟨200, Body.emptyObj⟩)
        (some "AAPL") "1d" =
      historical_price_by_interval ⟨"key", "None"⟩ (fun _ => ⟨200, Body.emptyObj⟩)
        (some "AAPL") "1d" :=
  hist_price_deterministic ⟨"key", "None"⟩ (fun _ => ⟨200, Body.emptyObj⟩)
    (some "AAPL") "1d" _ _ rfl rfl

/-- C9: a 200 response whose JSON body is the empty object makes
`_get_historical_fmp` return `None` rather than a frame, and
`historical_price_by_interval` — for `'1d'` as well as for the resampling
intervals — then raises `TypeError` by subscript-assigning on that `None`
value, instead of returning `None` or a defined error. -/
theorem empty_body_none_then_typeError (self : FMPState) (world : World)
    (t interval : String) (hiv : interval ∈ ["1d", "1w", "1m", "1q", "1y"])
    (hw : world (histUrl t self._key) = ⟨200, Body.emptyObj⟩) :
    (_get_historical_fmp world (histUrl t self._key)).1 = Except.ok Option.none ∧
      historical_price_by_interval self world (some t) interval =
        (Except.error PyError.typeError, [histUrl t self._key]) := by
  fin_cases hiv <;>
    refine ⟨by simp [_get_historical_fmp, hw], ?_⟩ <;>
    simp [historical_price_by_interval, intradayIntervals, _get_historical_fmp, hw]

/-- Witness for C9 at a concrete fixture. -/
theorem empty_body_none_then_typeError_witness :
    (_get_historical_fmp (fun _ => ⟨200, Body.emptyObj⟩)
        (histUrl "AAPL" "key")).1 = Except.ok Option.none ∧
      historical_price_by_interval ⟨"key", "None"⟩ (fun _ => ⟨200, Body.emptyObj⟩)
        (some "AAPL") "1w" =
        (Except.error PyError.typeError, [histUrl "AAPL" "key"]) :=
  empty_body_none_then_typeError ⟨"key", "None"⟩ (fun _ => ⟨200, Body.emptyObj⟩)
    "AAPL" "1w" (by decide) rfl

/-- C3 (counterexample): for the unsupported interval `'bad'` the call does
not surface a `ValueError` when the HTTP response has a non-200 status — the
interval check only runs after the fetch, so a `ConnectionError` is raised
instead. -/
theorem unsupported_interval_counterexample :
    "bad" ∉ supportedIntervals ∧
      (historical_price_by_interval ⟨"key", "None"⟩ (fun _ => ⟨500, Body.emptyObj⟩)
          (some "AAPL") "bad").1 = Except.error PyError.connectionError ∧
      PyError.connectionError ≠ PyError.valueError :=
  ⟨by decide, rfl, by decide⟩

/-- C3 (amended): for every interval string outside the supported list,
`historical_price_by_interval` raises `ValueError` — provided the fetch of
the daily series, which happens before the interval check, yields status 200
with a non-empty `historical` body; otherwise the fetch's own failure
(`ConnectionError`, `TypeError` or `KeyError`) preempts the interval
check. -/
theorem unsupported_interval_raises_valueError (self : FMPState) (world : World)
    (t sym interval : String) (rows : List Row)
    (hiv : interval ∉ supportedIntervals)
    (hw : world (histUrl t self._key) = ⟨200, Body.histData sym rows⟩)
    (hne : rows ≠ []) :
    historical_price_by_interval self world (some t) interval =
      (Except.error PyError.valueError, [histUrl t self._key]) := by
  simp only [supportedIntervals, List.mem_cons, List.mem_singleton, not_or] at hiv
  obtain ⟨h4, h1h, h30, h15, h5, h1min, h1d, h1w, h1m, h1q, h1y⟩ := hiv
  simp [historical_price_by_interval, intradayIntervals, _get_historical_fmp, hw, hne,
    h4, h1h, h30, h15, h5, h1min, h1d, h1w, h1m, h1q, h1y]

/-- Witness for the amended C3 at a concrete fixture. -/
theorem unsupported_interval_raises_valueError_witness :
    historical_price_by_interval ⟨"key", "None"⟩ sampleWorld (some "AAPL") "bad" =
      (Except.error PyError.valueError, [histUrl "AAPL" "key"]) :=
  unsupported_interval_raises_valueError ⟨"key", "None"⟩ sampleWorld
    "AAPL" "AAPL" "bad" sampleRows (by decide) rfl (by decide)

/-- C4 (counterexample): a 200 response whose body carries an empty
`historical` array makes `_get_historical_fmp` raise — `sort_values` on the
resulting frame, which has no `date` column, raises `KeyError` — so a 200
status does not guarantee the call returns without raising. -/
theorem fetch_200_raises_counterexample :
    ((fun _ => (⟨200, Body.histData "AAPL" []⟩ : HttpResponse)) "u").status = 200 ∧
      (_get_historical_fmp (fun _ => ⟨200, Body.histData "AAPL" []⟩) "u").1 =
        Except.error PyError.keyError ∧
      PyError.keyError ≠ PyError.connectionError :=
  ⟨rfl, rfl, by decide⟩

/-- C4 (amended): for every URL fetch performed by `_get_df` and
`_get_historical_fmp`, `ConnectionError` is raised iff the response status
is not 200, and exactly one GET is issued per fetch with no retry.  On a 200
status `_get_df` always returns without raising, while `_get_historical_fmp`
returns without raising provided the body is the empty object or carries a
non-empty `historical` array. -/
theorem fetch_connection_semantics (world : World) (url : String) :
    ((_get_df world url).1 = Except.error PyError.connectionError ↔
        (world url).status ≠ 200) ∧
      ((_get_historical_fmp world url).1 = Except.error PyError.connectionError ↔
        (world url).status ≠ 200) ∧
      ((world url).status = 200 →
        (_get_df world url).1 = Except.ok (fromDict (world url).body)) ∧
      ((world url).status = 200 → (world url).body = Body.emptyObj →
        (_get_historical_fmp world url).1 = Except.ok Option.none) ∧
      (∀ sym rows, (world url).status = 200 →
        (world url).body = Body.histData sym rows → rows ≠ [] →
        (_get_historical_fmp world url).1 = Except.ok (some ⟨sym, sortByDate rows⟩)) ∧
      (_get_df world url).2 = [url] ∧
      (_get_historical_fmp world url).2 = [url] := by
  refine ⟨?_, ?_, ?_, ?_, ?_, ?_, ?_⟩
  · by_cases h : (world url).status = 200 <;> simp [_get_df, h]
  · by_cases h : (world url).status = 200
    · cases hb : (world url).body <;> simp [_get_historical_fmp, h, hb] <;>
        split <;> simp
    · simp [_get_historical_fmp, h]
  · intro h; simp [_get_df, h]
  · intro h hb; simp [_get_historical_fmp, h, hb]
  · intro sym rows h hb hne; simp [_get_historical_fmp, h, hb, hne]
  · by_cases h : (world url).status = 200 <;> simp [_get_df, h]
  · by_cases h : (world url).status = 200
    · cases hb : (world url).body <;> simp [_get_historical_fmp, h, hb] <;> split <;> rfl
    · simp [_get_historical_fmp, h]

/-- Witness for the amended C4 at a concrete fixture. -/
theorem fetch_connection_semantics_witness :
    (_get_historical_fmp sampleWorld "u").1 =
      Except.ok (some ⟨"AAPL", sortByDate sampleRows⟩) :=
  (fetch_connection_semantics sampleWorld "u").2.2.2.2.1 "AAPL" sampleRows
    rfl rfl (by decide)

/-! ### Properties of `pct_change` -/

theorem zip_pctChangeGo (prev : ℚ) (rs : List Row) :
    (rs.zip (pctChangeList.pctChangeGo prev (rs.map Row.adjClose))).map
        (fun p => (⟨p.1, p.2⟩ : DailyRow)) =
      addPctAux prev rs := by
  induction rs generalizing prev with
  | nil => rfl
  | cons r rs ih => simp [pctChangeList.pctChangeGo, addPctAux, ih]

theorem addPct_cons (r : Row) (rs : List Row) :
    addPct (r :: rs) = ⟨r, Option.none⟩ :: addPctAux r.adjClose rs := by
  simp [addPct, pctChangeList, zip_pctChangeGo]

theorem addPctAux_map_row (prev : ℚ) (rs : List Row) :
    (addPctAux prev rs).map DailyRow.row = rs := by
  induction rs generalizing prev with
  | nil => rfl
  | cons r rs ih => simp [addPctAux, ih]

theorem addPct_map_row (rs : List Row) :
    (addPct rs).map DailyRow.row = rs := by
  cases rs with
  | nil => rfl
  | cons r rs => simp [addPct_cons, addPctAux_map_row]

theorem addPctAux_head (prev : ℚ) (rs : List Row) (b : DailyRow)
    (h : (addPctAux prev rs)[0]? = some b) :
    b.pct = some ((b.row.adjClose - prev) / prev) := by
  cases rs with
  | nil => simp [addPctAux] at h
  | cons r rs =>
      simp [addPctAux] at h
      rw [← h]

theorem addPctAux_adjacent (rs : List Row) : ∀ (prev : ℚ) (i : Nat) (a b : DailyRow),
    (addPctAux prev rs)[i]? = some a → (addPctAux prev rs)[i + 1]? = some b →
    b.pct = some ((b.row.adjClose - a.row.adjClose) / a.row.adjClose) := by
  induction rs with
  | nil => intro prev i a b ha _; simp [addPctAux] at ha
  | cons r rs ih =>
      intro prev i a b ha hb
      match i with
      | 0 =>
          simp [addPctAux] at ha hb
          have := addPctAux_head r.adjClose rs b hb
          subst ha
          simpa using this
      | i + 1 =>
          simp only [addPctAux, List.getElem?_cons_succ] at ha hb
          exact ih r.adjClose i a b ha hb

theorem addPct_head (rs : List Row) (a : DailyRow)
    (h : (addPct rs)[0]? = some a) : a.pct = Option.none := by
  cases rs with
  | nil => simp [addPct] at h
  | cons r rs =>
      rw [addPct_cons] at h
      simp at h
      rw [← h]

theorem addPct_adjacent (rs : List Row) (i : Nat) (a b : DailyRow)
    (ha : (addPct rs)[i]? = some a) (hb : (addPct rs)[i + 1]? = some b) :
    b.pct = some ((b.row.adjClose - a.row.adjClose) / a.row.adjClose) := by
  cases rs with
  | nil => simp [addPct] at ha
  | cons r rs =>
      rw [addPct_cons] at ha hb
      match i with
      | 0 =>
          simp at ha hb
          have := addPctAux_head r.adjClose rs b hb
          subst ha
          simpa using this
      | i + 1 =>
          simp only [List.getElem?_cons_succ] at ha hb
          exact addPctAux_adjacent rs r.adjClose i a b ha hb

/-! ### Sortedness of the date index -/

instance : IsTotal Row (fun a b => Date.le a.date b.date) :=
  ⟨fun a b => Nat.le_total a.date.key b.date.key⟩

instance : IsTrans Row (fun a b => Date.le a.date b.date) :=
  ⟨fun _ _ _ h h' => Nat.le_trans h h'⟩

theorem sortByDate_sorted (rows : List Row) :
    List.Pairwise (fun a b : Row => Date.le a.date b.date) (sortByDate rows) :=
  List.sorted_insertionSort _ rows

/-- C6: for every 200 response with non-empty historical data,
`historical_price_by_interval` with interval `'1d'` returns the historical
frame indexed by date (sorted chronologically) with an added `'pct change'`
column whose value at each row is the change of `'adjClose'` relative to
the chronologically previous row, `(curr - prev) / prev`, and undefined
(`NaN`) for the oldest row. -/
theorem daily_pct_change_correct (self : FMPState) (world : World)
    (t sym : String) (rows : List Row)
    (hw : world (histUrl t self._key) = ⟨200, Body.histData sym rows⟩)
    (hne : rows ≠ []) :
    ∃ out : List DailyRow,
      historical_price_by_interval self world (some t) "1d" =
        (Except.ok (PriceResult.dailyDF sym out), [histUrl t self._key]) ∧
      out.map DailyRow.row = sortByDate rows ∧
      List.Pairwise (fun a b : Row => Date.le a.date b.date) (sortByDate rows) ∧
      (∀ a : DailyRow, out[0]? = some a → a.pct = Option.none) ∧
      (∀ (i : Nat) (a b : DailyRow), out[i]? = some a → out[i + 1]? = some b →
        b.pct = some ((b.row.adjClose - a.row.adjClose) / a.row.adjClose)) := by
  refine ⟨addPct (sortByDate rows), ?_, addPct_map_row _, sortByDate_sorted rows,
    fun a h => addPct_head _ a h, fun i a b ha hb => addPct_adjacent _ i a b ha hb⟩
  simp [historical_price_by_interval, intradayIntervals, _get_historical_fmp, hw, hne]

/-- Witness for C6 at a concrete fixture. -/
theorem daily_pct_change_correct_witness :
    ∃ out : List DailyRow,
      historical_price_by_interval ⟨"key", "None"⟩ sampleWorld (some "AAPL") "1d" =
        (Except.ok (PriceResult.dailyDF "AAPL" out), [histUrl "AAPL" "key"]) ∧
      out.map DailyRow.row = sortByDate sampleRows ∧
      List.Pairwise (fun a b : Row => Date.le a.date b.date) (sortByDate sampleRows) ∧
      (∀ a : DailyRow, out[0]? = some a → a.pct = Option.none) ∧
      (∀ (i : Nat) (a b : DailyRow), out[i]? = some a → out[i + 1]? = some b →
        b.pct = some ((b.row.adjClose - a.row.adjClose) / a.row.adjClose)) :=
  daily_pct_change_correct ⟨"key", "None"⟩ sampleWorld "AAPL" "AAPL" sampleRows
    rfl (by decide)

/-! ### Properties of `drop_duplicates(keep='first')` -/

theorem dedupFirst_sublist_aux {α β : Type} [DecidableEq β] (key : α → β) :
    ∀ (n : Nat) (l : List α), l.length ≤ n → List.Sublist (dedupFirst key l) l := by
  intro n
  induction n with
  | zero =>
      intro l hl
      rw [List.length_eq_zero.mp (Nat.le_zero.mp hl), dedupFirst]
  | succ n ih =>
      intro l hl
      cases l with
      | nil => rw [dedupFirst]
      | cons x xs =>
          rw [dedupFirst]
          refine List.Sublist.cons₂ x ?_
          have h1 : (xs.filter fun y => decide (key y ≠ key x)).length ≤ n :=
            le_trans (List.length_filter_le _ _)
              (Nat.le_of_succ_le_succ (by simpa using hl))
          exact (ih _ h1).trans (List.filter_sublist xs)

theorem dedupFirst_sublist {α β : Type} [DecidableEq β] (key : α → β)
    (l : List α) : List.Sublist (dedupFirst key l) l :=
  dedupFirst_sublist_aux key l.length l le_rfl

theorem mem_of_mem_dedupFirst {α β : Type} [DecidableEq β] {key : α → β}
    {l : List α} {a : α} (h : a ∈ dedupFirst key l) : a ∈ l :=
  (dedupFirst_sublist key l).subset h

theorem dedupFirst_pairwise_aux {α β : Type} [DecidableEq β] (key : α → β) :
    ∀ (n : Nat) (l : List α), l.length ≤ n →
      (dedupFirst key l).Pairwise (fun a b => key a ≠ key b) := by
  intro n
  induction n with
  | zero =>
      intro l hl
      rw [List.length_eq_zero.mp (Nat.le_zero.mp hl), dedupFirst]
      exact List.Pairwise.nil
  | succ n ih =>
      intro l hl
      cases l with
      | nil => rw [dedupFirst]; exact List.Pairwise.nil
      | cons x xs =>
          rw [dedupFirst]
          refine List.Pairwise.cons ?_ (ih _ (le_trans (List.length_filter_le _ _)
            (Nat.le_of_succ_le_succ (by simpa using hl))))
          intro b hb
          have hbf := mem_of_mem_dedupFirst hb
          have := (List.mem_filter.mp hbf).2
          exact fun hxb => (of_decide_eq_true this) hxb.symm

theorem dedupFirst_pairwise {α β : Type} [DecidableEq β] (key : α → β)
    (l : List α) : (dedupFirst key l).Pairwise (fun a b => key a ≠ key b) :=
  dedupFirst_pairwise_aux key l.length l le_rfl

theorem dedupFirst_covers_aux {α β : Type} [DecidableEq β] (key : α → β) :
    ∀ (n : Nat) (l : List α), l.length ≤ n →
      ∀ a ∈ l, ∃ b ∈ dedupFirst key l, key b = key a := by
  intro n
  induction n with
  | zero =>
      intro l hl
      rw [List.length_eq_zero.mp (Nat.le_zero.mp hl)]
      intro a ha
      exact absurd ha (List.not_mem_nil a)
  | succ n ih =>
      intro l hl a ha
      cases l with
      | nil => exact absurd ha (List.not_mem_nil a)
      | cons x xs =>
          rw [dedupFirst]
          rcases List.mem_cons.mp ha with rfl | haxs
          · exact ⟨a, List.mem_cons_self _ _, rfl⟩
          · by_cases hk : key a = key x
            · exact ⟨x, List.mem_cons_self _ _, hk.symm⟩
            · have haf : a ∈ xs.filter fun y => decide (key y ≠ key x) :=
                List.mem_filter.mpr ⟨haxs, decide_eq_true hk⟩
              obtain ⟨b, hb, hkb⟩ := ih _ (le_trans (List.length_filter_le _ _)
                (Nat.le_of_succ_le_succ (by simpa using hl))) a haf
              exact ⟨b, List.mem_cons_of_mem x hb, hkb⟩

theorem dedupFirst_covers {α β : Type} [DecidableEq β] (key : α → β)
    (l : List α) : ∀ a ∈ l, ∃ b ∈ dedupFirst key l, key b = key a :=
  dedupFirst_covers_aux key l.length l le_rfl

theorem dedupFirst_keeps_first_aux {α β : Type} [DecidableEq β] (key : α → β)
    (le : α → α → Prop) (hrefl : ∀ x, le x x) :
    ∀ (n : Nat) (l : List α), l.length ≤ n → l.Pairwise le →
      ∀ b ∈ dedupFirst key l, ∀ a ∈ l, key a = key b → le b a := by
  intro n
  induction n with
  | zero =>
      intro l hl
      rw [List.length_eq_zero.mp (Nat.le_zero.mp hl), dedupFirst]
      intro _ b hb
      exact absurd hb (List.not_mem_nil b)
  | succ n ih =>
      intro l hl hp b hb a ha hk
      cases l with
      | nil => exact absurd ha (List.not_mem_nil a)
      | cons x xs =>
          rw [dedupFirst] at hb
          rcases List.pairwise_cons.mp hp with ⟨hx, hxs⟩
          rcases List.mem_cons.mp hb with rfl | hbtail
          · rcases List.mem_cons.mp ha with rfl | haxs
            · exact hrefl a
            · exact hx a haxs
          · have hbf := mem_of_mem_dedupFirst hbtail
            have hbne : key b ≠ key x := of_decide_eq_true (List.mem_filter.mp hbf).2
            rcases List.mem_cons.mp ha with rfl | haxs
            · exact absurd hk.symm hbne
            · have hane : key a ≠ key x := hk ▸ hbne
              have haf : a ∈ xs.filter fun y => decide (key y ≠ key x) :=
                List.mem_filter.mpr ⟨haxs, decide_eq_true hane⟩
              exact ih _ (le_trans (List.length_filter_le _ _)
                  (Nat.le_of_succ_le_succ (by simpa using hl)))
                (hxs.sublist (List.filter_sublist xs)) b hbtail a haf hk

theorem dedupFirst_keeps_first {α β : Type} [DecidableEq β] (key : α → β)
    (le : α → α → Prop) (hrefl : ∀ x, le x x) (l : List α) (hp : l.Pairwise le) :
    ∀ b ∈ dedupFirst key l, ∀ a ∈ l, key a = key b → le b a :=
  dedupFirst_keeps_first_aux key le hrefl l.length l le_rfl hp

theorem extendRows_map_row (iv : String) (rs : List Row) :
    (extendRows iv rs).map ExtRow.row = rs := by
  simp only [extendRows, List.map_map]
  simpa [Function.comp] using addPct_map_row rs

theorem extendRows_bucket (iv : String) (rs : List Row) :
    ∀ e ∈ extendRows iv rs, e.bucket = bucketOf iv e.row.date := by
  intro e he
  simp only [extendRows, List.mem_map] at he
  obtain ⟨d, _, rfl⟩ := he
  rfl

theorem extendRows_sorted (iv : String) (rows : List Row) :
    (extendRows iv (sortByDate rows)).Pairwise
      (fun a b => Date.le a.row.date b.row.date) := by
  have h := sortByDate_sorted rows
  rw [← extendRows_map_row iv (sortByDate rows)] at h
  exact List.Pairwise.of_map ExtRow.row (fun _ _ hs => hs) h

/-- C7: for every 200 response with non-empty historical data and every
interval in `{'1w','1m','1q','1y'}`, `historical_price_by_interval` returns
a selection of the daily rows that holds exactly one row per calendar
week / month / quarter / year bucket present in the daily data — namely the
row with the oldest date inside that bucket — ordered from oldest to
newest. -/
theorem bucketed_resample_correct (self : FMPState) (world : World)
    (t sym interval : String) (rows : List Row)
    (hiv : interval ∈ ["1w", "1m", "1q", "1y"])
    (hw : world (histUrl t self._key) = ⟨200, Body.histData sym rows⟩)
    (hne : rows ≠ []) :
    ∃ out : List ExtRow,
      historical_price_by_interval self world (some t) interval =
        (Except.ok (PriceResult.bucketedDF sym out), [histUrl t self._key]) ∧
      List.Sublist out (extendRows interval (sortByDate rows)) ∧
      (∀ e ∈ extendRows interval (sortByDate rows),
        e.bucket = bucketOf interval e.row.date) ∧
      out.Pairwise (fun a b => Date.le a.row.date b.row.date) ∧
      (out.map ExtRow.bucket).Nodup ∧
      (∀ e ∈ extendRows interval (sortByDate rows),
        ∃ o ∈ out, o.bucket = e.bucket) ∧
      (∀ o ∈ out, ∀ e ∈ extendRows interval (sortByDate rows),
        e.bucket = o.bucket → Date.le o.row.date e.row.date) := by
  have hunf : historical_price_by_interval self world (some t) interval =
      (Except.ok (PriceResult.bucketedDF sym
        (dedupFirst ExtRow.bucket (extendRows interval (sortByDate rows)))),
       [histUrl t self._key]) := by
    fin_cases hiv <;>
      simp [historical_price_by_interval, intradayIntervals, _get_historical_fmp, hw, hne]
  refine ⟨dedupFirst ExtRow.bucket (extendRows interval (sortByDate rows)), hunf,
    dedupFirst_sublist _ _, extendRows_bucket _ _, ?_, ?_,
    dedupFirst_covers _ _, ?_⟩
  · exact (extendRows_sorted interval rows).sublist (dedupFirst_sublist _ _)
  · exact (dedupFirst_pairwise ExtRow.bucket _).map ExtRow.bucket (fun _ _ h => h)
  · exact dedupFirst_keeps_first ExtRow.bucket _ (fun x => Nat.le_refl x.row.date.key)
      _ (extendRows_sorted interval rows)

/-- Witness for C7 at a concrete fixture. -/
theorem bucketed_resample_correct_witness :
    ∃ out : List ExtRow,
      historical_price_by_interval ⟨"key", "None"⟩ sampleWorld (some "AAPL") "1w" =
        (Except.ok (PriceResult.bucketedDF "AAPL" out), [histUrl "AAPL" "key"]) ∧
      List.Sublist out (extendRows "1w" (sortByDate sampleRows)) ∧
      (∀ e ∈ extendRows "1w" (sortByDate sampleRows),
        e.bucket = bucketOf "1w" e.row.date) ∧
      out.Pairwise (fun a b => Date.le a.row.date b.row.date) ∧
      (out.map ExtRow.bucket).Nodup ∧
      (∀ e ∈ extendRows "1w" (sortByDate sampleRows),
        ∃ o ∈ out, o.bucket = e.bucket) ∧
      (∀ o ∈ out, ∀ e ∈ extendRows "1w" (sortByDate sampleRows),
        e.bucket = o.bucket → Date.le o.row.date e.row.date) :=
  bucketed_resample_correct ⟨"key", "None"⟩ sampleWorld "AAPL" "AAPL" "1w"
    sampleRows (by decide) rfl (by decide)

set_option maxHeartbeats 1000000 in
/-- The outcome of `historical_price_by_interval` is exactly
`expectedOutcome` of the one response it fetches: `ConnectionError` iff the
status is not 200; on a 200 status a `TypeError` when the historical body is
the empty object (or a bare array), a `KeyError` when the `historical` array
is empty, a `ValueError` when the interval is unsupported and data was
fetched, and success otherwise. -/
theorem hist_price_outcome (self : FMPState) (world : World)
    (t interval : String) :
    outcomeOf (historical_price_by_interval self world (some t) interval).1 =
      expectedOutcome (world (reqUrl self t interval)) interval := by
  by_cases hin : interval ∈ intradayIntervals
  · simp only [intradayIntervals, List.mem_cons, List.not_mem_nil, or_false] at hin
    rcases eq_or_ne (world (reqUrl self t interval)).status 200 with hs | hs <;>
      rcases hin with rfl | rfl | rfl | rfl | rfl | rfl <;>
        simp [reqUrl, intradayIntervals] at hs <;>
        simp [historical_price_by_interval, expectedOutcome, outcomeOf, reqUrl,
          _get_df, intradayIntervals, hs]
  · simp only [intradayIntervals, List.mem_cons, List.not_mem_nil, or_false] at hin
    by_cases hs : (world (histUrl t self._key)).status = 200
    · cases hb : (world (histUrl t self._key)).body with
      | emptyObj =>
          by_cases h1d : interval = "1d" <;>
            simp [historical_price_by_interval, expectedOutcome, outcomeOf, reqUrl,
              _get_historical_fmp, intradayIntervals, hin, hs, hb, h1d]
      | chart rs =>
          by_cases h1d : interval = "1d" <;>
            simp [historical_price_by_interval, expectedOutcome, outcomeOf, reqUrl,
              _get_historical_fmp, intradayIntervals, hin, hs, hb, h1d]
      | histData sym rows =>
          by_cases hrows : rows = []
          · by_cases h1d : interval = "1d" <;>
              simp [historical_price_by_interval, expectedOutcome, outcomeOf, reqUrl,
                _get_historical_fmp, intradayIntervals, hin, hs, hb, hrows, h1d]
          · by_cases h1d : interval = "1d"
            · simp [historical_price_by_interval, expectedOutcome, outcomeOf, reqUrl,
                _get_historical_fmp, intradayIntervals, hin, hs, hb, hrows, h1d]
            · by_cases h1w : interval = "1w"
              · simp [historical_price_by_interval, expectedOutcome, outcomeOf, reqUrl,
                  _get_historical_fmp, intradayIntervals, hin, hs, hb, hrows, h1d, h1w]
              · by_cases h1m : interval = "1m"
                · simp [historical_price_by_interval, expectedOutcome, outcomeOf, reqUrl,
                    _get_historical_fmp, intradayIntervals, hin, hs, hb, hrows, h1d, h1w, h1m]
                · by_cases h1q : interval = "1q"
                  · simp [historical_price_by_interval, expectedOutcome, outcomeOf, reqUrl,
                      _get_historical_fmp, intradayIntervals, hin, hs, hb, hrows, h1d, h1w, h1m, h1q]
                  · by_cases h1y : interval = "1y" <;>
                      simp [historical_price_by_interval, expectedOutcome, outcomeOf,
                        reqUrl, _get_historical_fmp, intradayIntervals, hin, hs, hb, hrows,
                        h1d, h1w, h1m, h1q, h1y]
    · simp [historical_price_by_interval, expectedOutcome, outcomeOf, reqUrl,
        _get_historical_fmp, intradayIntervals, hin, hs]

/-! ### Plumbing for `get_multiple_returns` -/

theorem pctChangeGo_length (prev : ℚ) (xs : List ℚ) :
    (pctChangeList.pctChangeGo prev xs).length = xs.length := by
  induction xs generalizing prev with
  | nil => rfl
  | cons x xs ih => simp [pctChangeList.pctChangeGo, ih]

theorem pctChangeList_length (xs : List ℚ) :
    (pctChangeList xs).length = xs.length := by
  cases xs with
  | nil => rfl
  | cons x xs => simp [pctChangeList, pctChangeGo_length]

theorem plookup_isSome_iff {β : Type} (k : Period) (l : List (Period × β)) :
    (plookup k l).isSome ↔ k ∈ l.map Prod.fst := by
  induction l with
  | nil => simp [plookup]
  | cons p ps ih =>
      by_cases h : p.1 = k
      · subst h; simp [plookup]
      · simp [plookup, h, Ne.symm h, ih]

theorem plookup_eq_none_iff {β : Type} (k : Period) (l : List (Period × β)) :
    plookup k l = Option.none ↔ k ∉ l.map Prod.fst := by
  rw [← plookup_isSome_iff]
  cases plookup k l <;> simp

theorem plookup_of_mem {β : Type} {k : Period} {v : β} :
    ∀ {l : List (Period × β)}, (l.map Prod.fst).Nodup → (k, v) ∈ l →
      plookup k l = some v := by
  intro l
  induction l with
  | nil => intro _ h; exact absurd h (List.not_mem_nil _)
  | cons p ps ih =>
      intro hn h
      rcases List.mem_cons.mp h with rfl | hps
      · simp [plookup]
      · have hk : k ∈ ps.map Prod.fst :=
          List.mem_map.mpr ⟨(k, v), hps, rfl⟩
        have hne : p.1 ≠ k := by
          intro he
          exact (List.nodup_cons.mp (by simpa using hn)).1 (he ▸ hk)
        simp [plookup, hne]
        exact ih (List.nodup_cons.mp (by simpa using hn)).2 hps

theorem mem_of_plookup {β : Type} {k : Period} {v : β} :
    ∀ {l : List (Period × β)}, plookup k l = some v → (k, v) ∈ l := by
  intro l
  induction l with
  | nil => intro h; simp [plookup] at h
  | cons p ps ih =>
      intro h
      by_cases hk : p.1 = k
      · simp [plookup, hk] at h
        exact List.mem_cons.mpr (Or.inl (by rw [← hk, ← h]))
      · simp [plookup, hk] at h
        exact List.mem_cons.mpr (Or.inr (ih h))

theorem map_fst_filterMap_sublist {γ δ ε : Type} (g : γ → Option (δ × ε))
    (keyfn : γ → δ) (hg : ∀ x y, g x = some y → y.1 = keyfn x) (l : List γ) :
    List.Sublist ((l.filterMap g).map Prod.fst) (l.map keyfn) := by
  induction l with
  | nil => simp
  | cons x xs ih =>
      cases hx : g x with
      | none =>
          simp only [List.filterMap_cons, hx, List.map_cons]
          exact ih.trans (List.sublist_cons_self _ _)
      | some y =>
          simp only [List.filterMap_cons, hx, List.map_cons, hg x y hx]
          exact List.Sublist.cons₂ _ ih

/-- The period keys of a per-ticker column are pairwise distinct: the rows
were deduplicated per period before the column was built. -/
theorem returnsSeries_keys_nodup (f : Date → Period) (df : List DailyRow) :
    ((returnsSeries f df).map Prod.fst).Nodup := by
  unfold returnsSeries
  refine List.Nodup.sublist
    (map_fst_filterMap_sublist _ (fun rp => f rp.1.row.date) ?_ _) ?_
  · intro x y h
    rcases hx2 : x.2 with _ | v <;> rcases hxp : x.1.pct with _ | w <;>
      simp [hx2, hxp] at h
    rw [← h]
  · have hzip : ((dedupFirst (fun r => f r.row.date) df).zip
        (pctChangeList ((dedupFirst (fun r => f r.row.date) df).map
          (fun r => r.row.adjClose)))).map (fun rp => f rp.1.row.date) =
        (dedupFirst (fun r => f r.row.date) df).map (fun r => f r.row.date) := by
      have hlen : (dedupFirst (fun r => f r.row.date) df).length ≤
          (pctChangeList ((dedupFirst (fun r => f r.row.date) df).map
            (fun r => r.row.adjClose))).length := by
        rw [pctChangeList_length, List.length_map]
      calc ((dedupFirst (fun r => f r.row.date) df).zip
            (pctChangeList ((dedupFirst (fun r => f r.row.date) df).map
              (fun r => r.row.adjClose)))).map (fun rp => f rp.1.row.date)
          = (((dedupFirst (fun r => f r.row.date) df).zip
              (pctChangeList ((dedupFirst (fun r => f r.row.date) df).map
                (fun r => r.row.adjClose)))).map Prod.fst).map
              (fun r => f r.row.date) := by
            rw [List.map_map]; rfl
        _ = (dedupFirst (fun r => f r.row.date) df).map (fun r => f r.row.date) := by
            rw [List.map_fst_zip _ _ hlen]
    rw [hzip]
    exact (dedupFirst_pairwise (fun r => f r.row.date) df).map _ (fun _ _ h => h)

/-- Evaluation of the `'1d'` branch on a 200 response with data. -/
theorem hist1d_eq (self : FMPState) (world : World) (t sym : String)
    (rows : List Row)
    (hw : world (histUrl t self._key) = ⟨200, Body.histData sym rows⟩)
    (hne : rows ≠ []) :
    historical_price_by_interval self world (some t) "1d" =
      (Except.ok (PriceResult.dailyDF sym (addPct (sortByDate rows))),
       [histUrl t self._key]) := by
  simp [historical_price_by_interval, intradayIntervals, _get_historical_fmp, hw, hne]

/-- Evaluation of the per-ticker loop of `get_multiple_returns` when every
symbol's fetch yields a 200 response with data and the period is valid. -/
theorem gmrLoop_eq (self : FMPState) (world : World) (period : String)
    (f : Date → Period) (hf : toPeriodFn period = some f)
    (symF : String → String) (rowsF : String → List Row) :
    ∀ symbols : List String,
      (∀ t ∈ symbols, world (histUrl t self._key) =
          ⟨200, Body.histData (symF t) (rowsF t)⟩ ∧ rowsF t ≠ []) →
      gmrLoop self world period symbols =
        (Except.ok (symbols.map fun t =>
            (t, returnsSeries f (addPct (sortByDate (rowsF t))))),
         symbols.map fun t => histUrl t self._key) := by
  intro symbols
  induction symbols with
  | nil => intro _; rfl
  | cons t ts ih =>
      intro hw
      obtain ⟨hwt, hnet⟩ := hw t (List.mem_cons_self t ts)
      have hrec := ih (fun u hu => hw u (List.mem_cons_of_mem t hu))
      rw [gmrLoop, hist1d_eq self world t (symF t) (rowsF t) hwt hnet, hrec]
      simp [hf]

/-- The one-column frame starting the `reduce` fold satisfies the merge
specification for the singleton ticker list. -/
theorem singleton_inv (seriesOf : String → List (Period × ℚ)) (t : String)
    (hn : ((seriesOf t).map Prod.fst).Nodup) :
    MergedInv seriesOf [t] (singletonTable t (seriesOf t)) := by
  have hkeys : (singletonTable t (seriesOf t)).rows.map Prod.fst =
      (seriesOf t).map Prod.fst := by
    simp [singletonTable, List.map_map]
  refine ⟨rfl, ?_, ?_, ?_⟩
  · rw [hkeys]; exact hn
  · intro p
    rw [hkeys]
    simp
  · intro pr hpr
    simp only [singletonTable, List.mem_map] at hpr
    obtain ⟨pv, hpv, rfl⟩ := hpr
    refine ⟨rfl, ?_⟩
    intro i h
    have hi0 : i = 0 := Nat.lt_one_iff.mp (by simpa using h)
    subst hi0
    simp only [List.getElem?_cons_zero, List.getElem_cons_zero]
    rw [plookup_of_mem hn (by simpa using hpv)]

/-- One outer-merge step extends the merge specification by one ticker
column. -/
theorem mergeOuter_inv (seriesOf : String → List (Period × ℚ))
    (done : List String) (m : MergedTable) (t : String)
    (hnt : ((seriesOf t).map Prod.fst).Nodup)
    (hm : MergedInv seriesOf done m) :
    MergedInv seriesOf (done ++ [t]) (mergeOuter m t (seriesOf t)) := by
  obtain ⟨hcols, hnod, hmem, hrows⟩ := hm
  have hrowsEq : (mergeOuter m t (seriesOf t)).rows =
      (sortPeriods ((m.rows.map Prod.fst) ++
        ((seriesOf t).map Prod.fst).filter
          (fun k => decide (k ∉ m.rows.map Prod.fst)))).map
        (fun k => (k, ((plookup k m.rows).getD
            (List.replicate m.cols.length Option.none)) ++
          [plookup k (seriesOf t)])) := rfl
  have hcolsEq : (mergeOuter m t (seriesOf t)).cols = m.cols ++ [t] := rfl
  have hperm : List.Perm (sortPeriods ((m.rows.map Prod.fst) ++
      ((seriesOf t).map Prod.fst).filter
        (fun k => decide (k ∉ m.rows.map Prod.fst))))
      ((m.rows.map Prod.fst) ++
      ((seriesOf t).map Prod.fst).filter
        (fun k => decide (k ∉ m.rows.map Prod.fst))) :=
    List.perm_insertionSort _ _
  have hkeysRows : (mergeOuter m t (seriesOf t)).rows.map Prod.fst =
      sortPeriods ((m.rows.map Prod.fst) ++
        ((seriesOf t).map Prod.fst).filter
          (fun k => decide (k ∉ m.rows.map Prod.fst))) := by
    rw [hrowsEq, List.map_map]
    have hid : (Prod.fst ∘ fun k : Period =>
        (k, ((plookup k m.rows).getD
          (List.replicate m.cols.length Option.none)) ++
          [plookup k (seriesOf t)])) = fun k => k := rfl
    rw [hid, List.map_id']
  have hmem' : ∀ p : Period,
      p ∈ (mergeOuter m t (seriesOf t)).rows.map Prod.fst ↔
        p ∈ m.rows.map Prod.fst ∨ p ∈ (seriesOf t).map Prod.fst := by
    intro p
    rw [hkeysRows, hperm.mem_iff, List.mem_append]
    by_cases hp : p ∈ m.rows.map Prod.fst <;>
      simp [List.mem_filter, hp]
  have hlen_old : ∀ k : Period,
      ((plookup k m.rows).getD
        (List.replicate m.cols.length Option.none)).length = done.length := by
    intro k
    cases hpk : plookup k m.rows with
    | none => simp [hcols]
    | some v =>
        simp only [Option.getD_some]
        exact (hrows (k, v) (mem_of_plookup hpk)).1
  refine ⟨by rw [hcolsEq, hcols], ?_, ?_, ?_⟩
  · rw [hkeysRows, hperm.nodup_iff, List.nodup_append]
    refine ⟨hnod, hnt.filter _, ?_⟩
    intro a ha haf
    have := (List.mem_filter.mp haf).2
    exact (of_decide_eq_true this) ha
  · intro p
    rw [hmem' p]
    constructor
    · rintro (hp | hp)
      · obtain ⟨u, hu, hpu⟩ := (hmem p).mp hp
        exact ⟨u, List.mem_append_left _ hu, hpu⟩
      · exact ⟨t, List.mem_append_right _ (List.mem_singleton_self t), hp⟩
    · rintro ⟨u, hu, hpu⟩
      rcases List.mem_append.mp hu with hud | hut
      · exact Or.inl ((hmem p).mpr ⟨u, hud, hpu⟩)
      · rw [List.mem_singleton.mp hut] at hpu
        exact Or.inr hpu
  · intro pr hpr
    rw [hrowsEq] at hpr
    obtain ⟨k, hk, rfl⟩ := List.mem_map.mp hpr
    refine ⟨by simp [hlen_old k], ?_⟩
    intro i h
    have hlt : i < done.length + 1 := by simpa using h
    rcases Nat.lt_or_ge i done.length with hi | hi
    · have hi' : i < ((plookup k m.rows).getD
          (List.replicate m.cols.length Option.none)).length := by
        rw [hlen_old k]; exact hi
      rw [List.getElem?_append, if_pos hi', List.getElem_append_left hi]
      cases hpk : plookup k m.rows with
      | some v =>
          simp only [hpk, Option.getD_some]
          exact ((hrows (k, v) (mem_of_plookup hpk)).2) i hi
      | none =>
          simp only [hpk, Option.getD_none]
          have him : i < m.cols.length := by rw [hcols]; exact hi
          rw [List.getElem?_replicate, if_pos him]
          have hknot : k ∉ m.rows.map Prod.fst :=
            (plookup_eq_none_iff k m.rows).mp hpk
          have hknot2 : k ∉ (seriesOf done[i]).map Prod.fst := by
            intro hmem2
            exact hknot ((hmem k).mpr ⟨done[i], List.getElem_mem hi, hmem2⟩)
          rw [(plookup_eq_none_iff _ _).mpr hknot2]
    · have hieq : i = done.length := by omega
      subst hieq
      have hi' : ¬ done.length < ((plookup k m.rows).getD
          (List.replicate m.cols.length Option.none)).length := by
        rw [hlen_old k]; omega
      rw [List.getElem?_append, if_neg hi', hlen_old k]
      simp

/-- The whole `reduce` fold satisfies the merge specification. -/
theorem foldl_mergeOuter_inv (seriesOf : String → List (Period × ℚ))
    (hns : ∀ u, ((seriesOf u).map Prod.fst).Nodup) :
    ∀ (rest done : List String) (m : MergedTable),
      MergedInv seriesOf done m →
      MergedInv seriesOf (done ++ rest)
        (rest.foldl (fun acc u => mergeOuter acc u (seriesOf u)) m) := by
  intro rest
  induction rest with
  | nil => intro done m hm; simpa using hm
  | cons u rest ih =>
      intro done m hm
      have h1 := mergeOuter_inv seriesOf done m u (hns u) hm
      have h2 := ih (done ++ [u]) _ h1
      simpa [List.append_assoc] using h2

/-- Evaluation of `get_multiple_returns` once the loop result is known. -/
theorem gmr_result_eq (self : FMPState) (world : World)
    (tickers : List String) (period : String)
    (d : String × List (Period × ℚ)) (ds : List (String × List (Period × ℚ)))
    (log : List String)
    (hl : gmrLoop self world period tickers = (Except.ok (d :: ds), log)) :
    (get_multiple_returns self world tickers period Option.none).result =
      Except.ok (ds.foldl (fun acc p => mergeOuter acc p.1 p.2)
        (singletonTable d.1 d.2)) := by
  simp only [get_multiple_returns]
  rw [hl]

/-- C8: for every non-empty list of distinct tickers and every supported
period, when each ticker's fetch yields a 200 response with data,
`get_multiple_returns` returns a period-indexed frame with one column per
ticker; each ticker's column is its per-period percent-change series
(`returnsSeries`: first-in-period `adjClose`, `pct_change`, `NaN` rows
dropped); the rows are the outer union of the per-ticker period sets, and
the entry of a row at a ticker's column is that ticker's value at the
period, `NaN` (`none`) when the ticker lacks that period. -/
theorem multi_returns_outer_merge (self : FMPState) (world : World)
    (tickers : List String) (period : String) (f : Date → Period)
    (symF : String → String) (rowsF : String → List Row)
    (hne : tickers ≠ []) (hnd : tickers.Nodup)
    (hf : toPeriodFn period = some f)
    (hw : ∀ t ∈ tickers, world (histUrl t self._key) =
        ⟨200, Body.histData (symF t) (rowsF t)⟩ ∧ rowsF t ≠ []) :
    ∃ m : MergedTable,
      (get_multiple_returns self world tickers period Option.none).result =
        Except.ok m ∧
      m.cols = tickers ∧
      (m.rows.map Prod.fst).Nodup ∧
      (∀ p : Period, p ∈ m.rows.map Prod.fst ↔ ∃ t ∈ tickers,
        p ∈ (returnsSeries f (addPct (sortByDate (rowsF t)))).map Prod.fst) ∧
      (∀ pr ∈ m.rows, pr.2.length = tickers.length ∧
        ∀ (i : Nat) (h : i < tickers.length),
          pr.2[i]? = some (plookup pr.1
            (returnsSeries f (addPct (sortByDate (rowsF tickers[i])))))) := by
  cases tickers with
  | nil => exact absurd rfl hne
  | cons t0 ts =>
      have hloop := gmrLoop_eq self world period f hf symF rowsF (t0 :: ts) hw
      have hns : ∀ u, ((returnsSeries f (addPct (sortByDate (rowsF u)))).map
          Prod.fst).Nodup := fun u => returnsSeries_keys_nodup f _
      have hsing := singleton_inv
        (fun u => returnsSeries f (addPct (sortByDate (rowsF u)))) t0 (hns t0)
      have hfold := foldl_mergeOuter_inv
        (fun u => returnsSeries f (addPct (sortByDate (rowsF u)))) hns ts [t0]
        _ hsing
      have hl : gmrLoop self world period (t0 :: ts) =
          (Except.ok ((t0, returnsSeries f (addPct (sortByDate (rowsF t0)))) ::
            ts.map fun u => (u, returnsSeries f (addPct (sortByDate (rowsF u))))),
           (t0 :: ts).map fun u => histUrl u self._key) := by
        rw [hloop]
        simp
      have hres := gmr_result_eq self world (t0 :: ts) period
        (t0, returnsSeries f (addPct (sortByDate (rowsF t0))))
        (ts.map fun u => (u, returnsSeries f (addPct (sortByDate (rowsF u)))))
        ((t0 :: ts).map fun u => histUrl u self._key) hl
      rw [List.foldl_map] at hres
      obtain ⟨hc, hn2, hm2, hr2⟩ := hfold
      exact ⟨_, hres, hc, hn2, hm2, hr2⟩

/-- Witness for C8 at a concrete fixture. -/
theorem multi_returns_outer_merge_witness :
    ∃ m : MergedTable,
      (get_multiple_returns ⟨"key", "None"⟩ sampleWorld ["AAPL"] "M"
          Option.none).result = Except.ok m ∧
      m.cols = ["AAPL"] ∧
      (m.rows.map Prod.fst).Nodup ∧
      (∀ p : Period, p ∈ m.rows.map Prod.fst ↔ ∃ t ∈ (["AAPL"] : List String),
        p ∈ (returnsSeries (fun dt => Period.M dt.y dt.m)
          (addPct (sortByDate sampleRows))).map Prod.fst) ∧
      (∀ pr ∈ m.rows, pr.2.length = (["AAPL"] : List String).length ∧
        ∀ (i : Nat) (h : i < (["AAPL"] : List String).length),
          pr.2[i]? = some (plookup pr.1
            (returnsSeries (fun dt => Period.M dt.y dt.m)
              (addPct (sortByDate sampleRows))))) :=
  multi_returns_outer_merge ⟨"key", "None"⟩ sampleWorld ["AAPL"] "M"
    (fun dt => Period.M dt.y dt.m) (fun _ => "AAPL") (fun _ => sampleRows)
    (by decide) (by decide) rfl (fun t _ => ⟨rfl, by simp [sampleRows]⟩)

/-! ### Failure surface of `get_multiple_returns` -/

theorem outcomeOf_eq_error_iff {γ : Type} (r : Except PyError γ) (e : PyError) :
    outcomeOf r = Except.error e ↔ r = Except.error e := by
  cases r <;> simp [outcomeOf]

theorem reqUrl_1d (self : FMPState) (t : String) :
    reqUrl self t "1d" = histUrl t self._key := by
  simp [reqUrl, intradayIntervals]

/-- The `'1d'` call either raises or returns a daily frame. -/
theorem hist1d_shape (self : FMPState) (world : World) (t : String) :
    (∃ e log, historical_price_by_interval self world (some t) "1d" =
      (Except.error e, log)) ∨
    (∃ sym rows log, historical_price_by_interval self world (some t) "1d" =
      (Except.ok (PriceResult.dailyDF sym rows), log)) := by
  have hresp : world (histUrl t self._key) =
      ⟨(world (histUrl t self._key)).status, (world (histUrl t self._key)).body⟩ := rfl
  by_cases hs : (world (histUrl t self._key)).status = 200
  · cases hb : (world (histUrl t self._key)).body with
    | emptyObj =>
        left
        exact ⟨PyError.typeError, [histUrl t self._key],
          by simp [historical_price_by_interval, intradayIntervals,
            _get_historical_fmp, hs, hb]⟩
    | chart rs =>
        left
        exact ⟨PyError.typeError, [histUrl t self._key],
          by simp [historical_price_by_interval, intradayIntervals,
            _get_historical_fmp, hs, hb]⟩
    | histData sym rows =>
        by_cases hr : rows = []
        · left
          exact ⟨PyError.keyError, [histUrl t self._key],
            by simp [historical_price_by_interval, intradayIntervals,
              _get_historical_fmp, hs, hb, hr]⟩
        · right
          refine ⟨sym, addPct (sortByDate rows), [histUrl t self._key], ?_⟩
          exact hist1d_eq self world t sym rows (by rw [hresp, hs, hb]) hr
  · left
    exact ⟨PyError.connectionError, [histUrl t self._key],
      by simp [historical_price_by_interval, intradayIntervals,
        _get_historical_fmp, hs]⟩

/-- The loop of `get_multiple_returns`, run with an accepted period
frequency, fails exactly when `gmrLoopOutcome` says so, and otherwise
yields one column per symbol. -/
theorem gmrLoop_outcome_eq (self : FMPState) (world : World)
    (period : String) (f : Date → Period) (hf : toPeriodFn period = some f) :
    ∀ symbols : List String,
      (∃ e log, gmrLoop self world period symbols = (Except.error e, log) ∧
        gmrLoopOutcome self world symbols = Except.error e) ∨
      (∃ l log, gmrLoop self world period symbols = (Except.ok l, log) ∧
        gmrLoopOutcome self world symbols = Except.ok () ∧
        l.length = symbols.length) := by
  intro symbols
  induction symbols with
  | nil => exact Or.inr ⟨[], [], rfl, rfl, rfl⟩
  | cons t ts ih =>
      rcases hist1d_shape self world t with ⟨e, log, hh⟩ | ⟨sym, rows, log, hh⟩
      · left
        have hexp : expectedOutcome (world (histUrl t self._key)) "1d" =
            Except.error e := by
          have h2 := hist_price_outcome self world t "1d"
          rw [reqUrl_1d] at h2
          rw [hh] at h2
          simpa [outcomeOf] using h2.symm
        refine ⟨e, log, ?_, ?_⟩
        · rw [gmrLoop, hh]
        · rw [gmrLoopOutcome, hexp]
      · have hexp : expectedOutcome (world (histUrl t self._key)) "1d" =
            Except.ok () := by
          have h2 := hist_price_outcome self world t "1d"
          rw [reqUrl_1d] at h2
          rw [hh] at h2
          simpa [outcomeOf] using h2.symm
        rcases ih with ⟨e, log', hl, ho⟩ | ⟨l, log', hl, ho, hlen⟩
        · left
          refine ⟨e, log ++ log', ?_, ?_⟩
          · rw [gmrLoop, hh, hf, hl]
          · rw [gmrLoopOutcome, hexp]
            exact ho
        · right
          refine ⟨(t, returnsSeries f rows) :: l, log ++ log', ?_, ?_, ?_⟩
          · rw [gmrLoop, hh, hf, hl]
          · rw [gmrLoopOutcome, hexp]
            exact ho
          · simp [hlen]

/-- For a documented period frequency, `get_multiple_returns` fails exactly
as `gmrExpectedOutcome` describes on the symbols the loop iterates over. -/
theorem gmr_outcome_core (self : FMPState) (world : World)
    (tickers : List String) (period : String) (cwi : Option String)
    (f : Date → Period) (hf : toPeriodFn period = some f) :
    outcomeOf (get_multiple_returns self world tickers period cwi).result =
      gmrExpectedOutcome self world
        (match cwi with
         | Option.none => tickers
         | some idx => tickers ++ [idx]) := by
  cases cwi with
  | none =>
      rcases gmrLoop_outcome_eq self world period f hf tickers with
        ⟨e, log, hl, ho⟩ | ⟨l, log, hl, ho, hlen⟩
      · have hne : tickers ≠ [] := by
          intro h
          subst h
          simp [gmrLoop] at hl
        simp only [get_multiple_returns, hl]
        simp [outcomeOf, gmrExpectedOutcome, hne, ho]
      · cases tickers with
        | nil =>
            have hl0 : l = [] := List.length_eq_zero.mp hlen
            subst hl0
            simp only [get_multiple_returns, hl]
            simp [outcomeOf, gmrExpectedOutcome]
        | cons t0 ts =>
            cases l with
            | nil => simp at hlen
            | cons d ds =>
                simp only [get_multiple_returns, hl]
                simp [outcomeOf, gmrExpectedOutcome, ← ho]
  | some idx =>
      rcases gmrLoop_outcome_eq self world period f hf (tickers ++ [idx]) with
        ⟨e, log, hl, ho⟩ | ⟨l, log, hl, ho, hlen⟩
      · have hne : tickers ++ [idx] ≠ [] := by simp
        simp only [get_multiple_returns, hl]
        simp [outcomeOf, gmrExpectedOutcome, hne, ho]
      · cases l with
        | nil => simp at hlen
        | cons d ds =>
            simp only [get_multiple_returns, hl]
            simp [outcomeOf, gmrExpectedOutcome, ← ho]

/-- C2 (amended): the failure modes of the public calls comprise four
kinds, not two.  For `historical_price_by_interval` the outcome is fully
characterised by `expectedOutcome`: `ConnectionError` iff the status is not
200; on a 200 status, `TypeError` for an empty-object or bare-array body,
`KeyError` for an empty `historical` array, `ValueError` for an unsupported
interval once data was fetched, success otherwise.  For
`get_multiple_returns` with a documented period (`D`/`W`/`M`/`Q`/`Y`) the
outcome is the first per-ticker daily-fetch failure of those same kinds,
`TypeError` when the symbols list is empty (`reduce()` of no frames), and
success otherwise; with an empty tickers list the `TypeError` arises for
every period string, as the loop never runs.  Period strings outside the
documented five resolve through pandas' frequency-alias table, which this
model leaves uncharacterised. -/
theorem failure_taxonomy_amended :
    (∀ (self : FMPState) (world : World) (t interval : String),
      outcomeOf (historical_price_by_interval self world (some t) interval).1 =
        expectedOutcome (world (reqUrl self t interval)) interval) ∧
    (∀ (self : FMPState) (world : World) (tickers : List String)
        (period : String) (cwi : Option String),
      period ∈ ["D", "W", "M", "Q", "Y"] →
      outcomeOf (get_multiple_returns self world tickers period cwi).result =
        gmrExpectedOutcome self world
          (match cwi with
           | Option.none => tickers
           | some idx => tickers ++ [idx])) ∧
    (∀ (self : FMPState) (world : World) (period : String),
      (get_multiple_returns self world [] period Option.none).result =
        Except.error PyError.typeError) := by
  refine ⟨hist_price_outcome, ?_, ?_⟩
  · intro self world tickers period cwi hp
    obtain ⟨f, hf⟩ : ∃ f, toPeriodFn period = some f := by
      fin_cases hp <;> exact ⟨_, rfl⟩
    exact gmr_outcome_core self world tickers period cwi f hf
  · intro self world period
    rfl

/-- Witness for the amended C2 at a concrete fixture. -/
theorem failure_taxonomy_amended_witness :
    outcomeOf (get_multiple_returns ⟨"key", "None"⟩ sampleWorld ["AAPL"] "M"
        Option.none).result =
      gmrExpectedOutcome ⟨"key", "None"⟩ sampleWorld ["AAPL"] :=
  failure_taxonomy_amended.2.1 ⟨"key", "None"⟩ sampleWorld ["AAPL"] "M"
    Option.none (by decide)

end FMPSpec
